import Mathlib

/-!
Verification of `nlp_architect/models/sa_bert/absa_utils.py`.

The Python module converts SemEval-style ABSA token-classification files into
fixed-length numeric feature records.  We embed its two pipeline stages —
`read_examples_from_file` and `convert_examples_to_features` — as executable
Lean functions.  File contents are modelled as the list of strings that Python
line iteration yields (each line keeps its trailing newline, except possibly
the last); Python exceptions are modelled with `Except`.
-/

deriving instance DecidableEq for Except

namespace AbsaUtils

/-- The Python exceptions the module can raise while processing data. -/
inductive PyErr where
  | indexError
  | keyError
  | assertionError
deriving DecidableEq, Repr

/-- `InputExample` dataclass: guid, words, and per-word labels.
The reader always populates `labels` (defaulting to a sentinel), so we use a
plain list rather than an optional one. -/
structure InputExample where
  guid : String
  words : List String
  labels : List String
deriving DecidableEq, Repr

/-- `InputFeatures` dataclass: the four model-input sequences. -/
structure InputFeatures where
  input_ids : List Int
  attention_mask : List Nat
  token_type_ids : List Int
  label_ids : List Nat
deriving DecidableEq, Repr

/-- Helper for `pySplit`: scan the characters, `acc` holding the (reversed)
characters of the field currently being read. -/
def splitWsAux : List Char → List Char → List String
  | [], acc => if acc.isEmpty then [] else [String.mk acc.reverse]
  | c :: cs, acc =>
    if c.isWhitespace then
      if acc.isEmpty then splitWsAux cs []
      else String.mk acc.reverse :: splitWsAux cs []
    else splitWsAux cs (c :: acc)

/-- Python `line.split()`: split on runs of whitespace, yielding no empty
pieces. -/
def pySplit (line : String) : List String :=
  splitWsAux line.data []

/-- Python `s.replace("\n", "")`: since the pattern is the single character
`\n`, this removes every newline character of `s`. -/
def stripNewlines (s : String) : String :=
  String.mk (s.data.filter (fun c => c ≠ '\n'))

/-- The source tests `line in ('', '\n')` to detect an example boundary. -/
def isBlank (line : String) : Bool :=
  line = "" || line = "\n"

/-- Guid format from the source: `f"{mode}-{guid_index}"`. -/
def mkGuid (mode : String) (i : Nat) : String :=
  mode ++ "-" ++ toString i

/-- The label appended for a line whose whitespace-split is `w :: t`:
`"O"` when the line had a single field (`len(splits) > 1` false), else
`splits[-1].replace("\n", "")`. -/
def lineLabelOf (w : String) (t : List String) : String :=
  if t.isEmpty then "O" else stripNewlines ((w :: t).getLast (List.cons_ne_nil w t))

/-- The loop body of `read_examples_from_file`, carrying the accumulators
`guid_index`, `words` and `labels` exactly as the Python loop does.  A
non-blank line whose split is empty makes `splits[0]` raise `IndexError`. -/
def readLoop (mode : String) (guid_index : Nat) (words labels : List String) :
    List String → Except PyErr (List InputExample)
  | [] =>
    if words.isEmpty then .ok []
    else .ok [⟨mkGuid mode guid_index, words, labels⟩]
  | line :: rest =>
    if isBlank line then
      if words.isEmpty then
        readLoop mode guid_index [] [] rest
      else
        match readLoop mode (guid_index + 1) [] [] rest with
        | .error e => .error e
        | .ok es => .ok (⟨mkGuid mode guid_index, words, labels⟩ :: es)
    else
      match pySplit line with
      | [] => .error .indexError
      | w :: t =>
        readLoop mode guid_index (words ++ [w]) (labels ++ [lineLabelOf w t]) rest

/-- `read_examples_from_file`, with the already-read file contents passed as
the list of lines Python iteration would yield. -/
def read_examples_from_file (mode : String) (lines : List String) :
    Except PyErr (List InputExample) :=
  readLoop mode 1 [] [] lines

/-- Spec-side definition for the block count: scan the lines, counting the
maximal runs of non-blank lines; the flag records whether the scan is
currently inside a block. -/
def countBlocks : Bool → List String → Nat
  | _, [] => 0
  | inside, line :: rest =>
    if isBlank line then countBlocks false rest
    else (if inside then 0 else 1) + countBlocks true rest

/-- Spec-side definition: the number of blank-line-delimited blocks in a
file. -/
def numBlocks (lines : List String) : Nat :=
  countBlocks false lines

example : read_examples_from_file "train" ["a A\n", "\n", "b\n"] =
    .ok [⟨"train-1", ["a"], ["A"]⟩, ⟨"train-2", ["b"], ["O"]⟩] := by decide

example : read_examples_from_file "train" [" \n"] = .error .indexError := by decide

example : numBlocks ["a A\n", "\n", "\n", "b\n"] = 2 := by decide

/-! ## The feature encoder -/

/-- The injected tokenizer, an opaque external collaborator: special tokens,
pad ids, sub-tokenization, and the per-token id mapping underlying
`convert_tokens_to_ids` (which maps it over a token list). -/
structure Tokenizer where
  cls_token : String
  sep_token : String
  pad_token_id : Int
  pad_token_type_id : Int
  tokenize : String → List String
  token_to_id : String → Int

/-- `label_pad = 0` in the source (`# HF example: label_pad = -100`). -/
def label_pad : Nat := 0

/-- `sequence_segment_id = 0` in the source. -/
def sequence_segment_id : Int := 0

/-- `cls_token_segment_id = 1` in the source. -/
def cls_token_segment_id : Int := 1

/-- The dict comprehension `{label: i for i, label in enumerate(label_list)}`,
as a lookup function; later insertions overwrite earlier ones, so a duplicated
label maps to the index of its last occurrence.  The parameter `k` is the
index of the first element of the remaining list. -/
def label_map_from (k : Nat) : List String → String → Option Nat
  | [], _ => none
  | lbl :: rest, s =>
    match label_map_from (k + 1) rest s with
    | some j => some j
    | none => if lbl = s then some k else none

/-- Lookup in the label dictionary built from `label_list`. -/
def label_map (label_list : List String) (s : String) : Option Nat :=
  label_map_from 0 label_list s

/-- Python `l[0] = x`: raises `IndexError` on an empty list. -/
def pySet0 {α : Type} (l : List α) (x : α) : Except PyErr (List α) :=
  match l with
  | [] => .error .indexError
  | _ :: t => .ok (x :: t)

/-- Python `label_map[label]`: raises `KeyError` when absent. -/
def lookupLabel (lm : String → Option Nat) (s : String) : Except PyErr Nat :=
  match lm s with
  | some i => .ok i
  | none => .error .keyError

/-- One iteration of the word loop in `convert_examples_to_features`:
sub-tokenize the word, build `v_tok` (`[0]*n` then `v_tok[0] = 1`) and
`v_lbl` (`[label_pad]*n` then `v_lbl[0] = label_map[label]`), in the order
the statements execute. -/
def wordStep (tok : String → List String) (lm : String → Option Nat)
    (word label : String) : Except PyErr (List String × List Nat × List Nat) :=
  match pySet0 (List.replicate (tok word).length 0) 1 with
  | .error e => .error e
  | .ok v_tok =>
    match lookupLabel lm label with
    | .error e => .error e
    | .ok i =>
      match pySet0 (List.replicate (tok word).length label_pad) i with
      | .error e => .error e
      | .ok v_lbl => .ok (tok word, v_tok, v_lbl)

/-- The word loop of `convert_examples_to_features`, accumulating the
sub-token, valid-token and label sequences over
`zip(example.words, example.labels)`. -/
def processWords (tok : String → List String) (lm : String → Option Nat) :
    List (String × String) → Except PyErr (List String × List Nat × List Nat)
  | [] => .ok ([], [], [])
  | (word, label) :: rest =>
    match wordStep tok lm word label with
    | .error e => .error e
    | .ok (nt, vt, vl) =>
      match processWords tok lm rest with
      | .error e => .error e
      | .ok (ts, vs, ls) => .ok (nt ++ ts, vt ++ vs, vl ++ ls)

/-- Python slice `l[:n]` for an `int` bound `n`: a negative bound counts from
the end (`max(len(l) + n, 0)` elements are kept). -/
def pyTake {α : Type} (n : Int) (l : List α) : List α :=
  if 0 ≤ n then l.take n.toNat else l.take (l.length - (-n).toNat)

/-- The per-example tail of `convert_examples_to_features`: truncation to
`max_seq_length - 2`, appending the separator, prepending the classifier,
building ids, mask and padding, and the five length assertions. -/
def buildFeature (tk : Tokenizer) (max_seq_length : Int)
    (mask_padding_with_zero : Bool) (tokens0 : List String)
    (valid0 labels0 : List Nat) : Except PyErr InputFeatures :=
  let tokens1 := pyTake (max_seq_length - 2) tokens0
  let labels1 := pyTake (max_seq_length - 2) labels0
  let valid1 := pyTake (max_seq_length - 2) valid0
  let tokens2 := tokens1 ++ [tk.sep_token]
  let labels2 := labels1 ++ [label_pad]
  let valid2 := valid1 ++ [0]
  let segment2 := List.replicate tokens2.length sequence_segment_id
  let tokens3 := tk.cls_token :: tokens2
  let segment3 := cls_token_segment_id :: segment2
  let labels3 := label_pad :: labels2
  let valid3 := 0 :: valid2
  let input_ids0 := tokens3.map tk.token_to_id
  let input_mask0 := List.replicate input_ids0.length
    (if mask_padding_with_zero then (1 : Nat) else 0)
  let padding_length : Int := max_seq_length - input_ids0.length
  let input_ids := input_ids0 ++ List.replicate padding_length.toNat tk.pad_token_id
  let input_mask := input_mask0 ++ List.replicate padding_length.toNat
    (if mask_padding_with_zero then 0 else 1)
  let segment_ids := segment3 ++ List.replicate padding_length.toNat tk.pad_token_type_id
  let label_ids := labels3 ++ List.replicate padding_length.toNat label_pad
  let valid_ids := valid3 ++ List.replicate padding_length.toNat 0
  if (input_ids.length : Int) = max_seq_length then
    if (input_mask.length : Int) = max_seq_length then
      if (segment_ids.length : Int) = max_seq_length then
        if (valid_ids.length : Int) = max_seq_length then
          if (label_ids.length : Int) = max_seq_length then
            .ok ⟨input_ids, input_mask, segment_ids, label_ids⟩
          else .error .assertionError
        else .error .assertionError
      else .error .assertionError
    else .error .assertionError
  else .error .assertionError

/-- Conversion of one `InputExample` to an `InputFeatures` record. -/
def convertExample (tk : Tokenizer) (lm : String → Option Nat)
    (max_seq_length : Int) (mask_padding_with_zero : Bool)
    (ex : InputExample) : Except PyErr InputFeatures :=
  match processWords tk.tokenize lm (ex.words.zip ex.labels) with
  | .error e => .error e
  | .ok (tokens0, valid0, labels0) =>
    buildFeature tk max_seq_length mask_padding_with_zero tokens0 valid0 labels0

/-- The example loop of `convert_examples_to_features`, appending each
converted record in order. -/
def convertLoop (tk : Tokenizer) (lm : String → Option Nat)
    (max_seq_length : Int) (mask_padding_with_zero : Bool) :
    List InputExample → Except PyErr (List InputFeatures)
  | [] => .ok []
  | ex :: rest =>
    match convertExample tk lm max_seq_length mask_padding_with_zero ex with
    | .error e => .error e
    | .ok f =>
      match convertLoop tk lm max_seq_length mask_padding_with_zero rest with
      | .error e => .error e
      | .ok fs => .ok (f :: fs)

/-- `convert_examples_to_features`, with the tokenizer injected. -/
def convert_examples_to_features (examples : List InputExample)
    (label_list : List String) (max_seq_length : Int) (tk : Tokenizer)
    (mask_padding_with_zero : Bool) : Except PyErr (List InputFeatures) :=
  convertLoop tk (label_map label_list) max_seq_length mask_padding_with_zero examples

/-- A concrete tokenizer used to evaluate the definitions on small inputs. -/
def demoTok : Tokenizer where
  cls_token := "C"
  sep_token := "S"
  pad_token_id := 9
  pad_token_type_id := 7
  tokenize := fun w => if w = "aa" then ["a", "#a"] else if w = "e" then [] else [w]
  token_to_id := fun s => (s.length : Int)

example : convert_examples_to_features [⟨"t", ["x"], ["O"]⟩] ["O"] 4 demoTok true =
    .ok [⟨[1, 1, 1, 9], [1, 1, 1, 0], [1, 0, 0, 7], [0, 0, 0, 0]⟩] := by decide

example : convert_examples_to_features [⟨"t", ["aa"], ["B"]⟩] ["O", "B"] 6 demoTok true =
    .ok [⟨[1, 1, 2, 1, 9, 9], [1, 1, 1, 1, 0, 0], [1, 0, 0, 0, 7, 7], [0, 1, 0, 0, 0, 0]⟩] := by
  decide

example : convert_examples_to_features [⟨"t", ["x"], ["BAD"]⟩] ["O"] 4 demoTok true =
    .error .keyError := by decide

example : convert_examples_to_features [⟨"t", ["e"], ["O"]⟩] ["O"] 4 demoTok true =
    .error .indexError := by decide

example : convert_examples_to_features [⟨"t", ["x", "y"], ["O", "O"]⟩] ["O"] 1 demoTok true =
    .error .assertionError := by decide

/-- An example truncated to its first `min(len(words), len(labels))`
word/label pairs: the portion `zip(example.words, example.labels)` actually
iterates over. -/
def truncToMin (ex : InputExample) : InputExample :=
  ⟨ex.guid, ex.words.take (min ex.words.length ex.labels.length),
    ex.labels.take (min ex.words.length ex.labels.length)⟩

/-- A word/label pair of an example originates from a non-blank line of the
file `L`: some line of `L` whitespace-splits to `w :: t` and the label is the
one the reader computes from that split; when the line had a single field
(`t = []`), the label is the sentinel `"O"`. -/
def entryFromLine (L : List String) (w lbl : String) : Prop :=
  ∃ line ∈ L, ∃ t, pySplit line = w :: t ∧ lbl = lineLabelOf w t ∧
    (t = [] → lbl = "O")

/-! ## Reader lemmas -/

theorem getD_concat_self {α : Type} (l : List α) (x d : α) :
    (l ++ [x]).getD l.length d = x := by
  rw [List.getD_append_right l [x] d l.length (Nat.le_refl _), Nat.sub_self]
  rfl

theorem readLoop_count (mode : String) :
    ∀ (lines : List String) (g : Nat) (ws ls : List String) (exs : List InputExample),
      readLoop mode g ws ls lines = .ok exs →
      exs.length = (if ws.isEmpty then 0 else 1) + countBlocks (!ws.isEmpty) lines := by
  intro lines
  induction lines with
  | nil =>
    intro g ws ls exs h
    cases hw : ws.isEmpty <;> rw [readLoop] at h <;> simp [hw] at h <;>
      simp [countBlocks, hw, ← h]
  | cons l rest ih =>
    intro g ws ls exs h
    rw [readLoop] at h
    by_cases hb : isBlank l
    · rw [if_pos hb] at h
      cases hw : ws.isEmpty
      · rw [hw] at h
        simp only [Bool.false_eq_true, if_false] at h
        cases hrec : readLoop mode (g + 1) [] [] rest with
        | error e => rw [hrec] at h; cases h
        | ok es =>
          rw [hrec] at h
          cases h
          have h2 := ih (g + 1) [] [] es hrec
          simp only [List.isEmpty_nil] at h2
          simp [countBlocks, hb, hw, h2]
          omega
      · rw [hw] at h
        simp only [if_true] at h
        have h2 := ih g [] [] exs h
        simp only [List.isEmpty_nil] at h2
        simp [countBlocks, hb, hw, h2]
    · rw [if_neg hb] at h
      cases hs : pySplit l with
      | nil => rw [hs] at h; cases h
      | cons w t =>
        rw [hs] at h
        have h2 := ih g (ws ++ [w]) (ls ++ [lineLabelOf w t]) exs h
        have hne : (ws ++ [w]).isEmpty = false := by simp
        rw [hne] at h2
        simp only [Bool.not_false, if_false] at h2
        cases hw : ws.isEmpty <;> simp [countBlocks, hb, hw, h2]

/-- C3: For every valid corpus file (one the reader parses without error), the
number of `InputExample` records returned by `read_examples_from_file` equals
the number of blank-line-delimited blocks in the file. -/
theorem reader_count_eq_numBlocks (mode : String) (lines : List String)
    (exs : List InputExample)
    (h : read_examples_from_file mode lines = .ok exs) :
    exs.length = numBlocks lines := by
  have h2 := readLoop_count mode lines 1 [] [] exs h
  simpa [numBlocks] using h2

/-- Witness for C3 at a concrete two-block file. -/
theorem reader_count_eq_numBlocks_witness :
    ([⟨"train-1", ["a"], ["A"]⟩, ⟨"train-2", ["b"], ["O"]⟩] :
      List InputExample).length = numBlocks ["a A\n", "\n", "\n", "b\n"] :=
  reader_count_eq_numBlocks "train" ["a A\n", "\n", "\n", "b\n"] _ (by decide)

theorem readLoop_indexError (mode : String) :
    ∀ (lines : List String) (g : Nat) (ws ls : List String),
      (∃ line ∈ lines, isBlank line = false ∧ pySplit line = []) →
      readLoop mode g ws ls lines = .error .indexError := by
  intro lines
  induction lines with
  | nil =>
    intro g ws ls hbad
    obtain ⟨line, hmem, _⟩ := hbad
    cases hmem
  | cons l rest ih =>
    intro g ws ls hbad
    rw [readLoop]
    by_cases hb : isBlank l
    · rw [if_pos hb]
      have hrest : ∃ line ∈ rest, isBlank line = false ∧ pySplit line = [] := by
        obtain ⟨line, hmem, hprops⟩ := hbad
        cases hmem with
        | head => rw [hprops.1] at hb; cases hb
        | tail _ hmem2 => exact ⟨line, hmem2, hprops⟩
      cases hw : ws.isEmpty
      · simp only [Bool.false_eq_true, if_false]
        rw [ih (g + 1) [] [] hrest]
      · simp only [if_true]
        exact ih g [] [] hrest
    · rw [if_neg hb]
      cases hs : pySplit l with
      | nil => rfl
      | cons w t =>
        have hrest : ∃ line ∈ rest, isBlank line = false ∧ pySplit line = [] := by
          obtain ⟨line, hmem, hprops⟩ := hbad
          cases hmem with
          | head => rw [hprops.2] at hs; cases hs
          | tail _ hmem2 => exact ⟨line, hmem2, hprops⟩
        exact ih g (ws ++ [w]) (ls ++ [lineLabelOf w t]) hrest

/-- C7: A corpus file containing a malformed non-blank line with zero
whitespace-separated fields (such as a line made only of spaces) makes
`read_examples_from_file` raise an `IndexError` that propagates to the
caller. -/
theorem reader_malformed_line_indexError (mode : String) (lines : List String)
    (hbad : ∃ line ∈ lines, isBlank line = false ∧ pySplit line = []) :
    read_examples_from_file mode lines = .error .indexError :=
  readLoop_indexError mode lines 1 [] [] hbad

/-- Witness for C7: a file whose second line is made only of a space. -/
theorem reader_malformed_line_indexError_witness :
    read_examples_from_file "train" ["x X\n", " \n"] = .error .indexError :=
  reader_malformed_line_indexError "train" ["x X\n", " \n"] (by decide)

theorem readLoop_words_ne_nil (mode : String) :
    ∀ (lines : List String) (g : Nat) (ws ls : List String) (exs : List InputExample),
      readLoop mode g ws ls lines = .ok exs →
      ∀ e ∈ exs, e.words ≠ [] := by
  intro lines
  induction lines with
  | nil =>
    intro g ws ls exs h e hmem
    cases hw : ws.isEmpty <;> rw [readLoop] at h <;> simp [hw] at h <;> subst h
    · have hne : ws ≠ [] := by intro hcon; subst hcon; simp at hw
      simp only [List.mem_singleton] at hmem
      subst hmem
      simpa using hne
    · cases hmem
  | cons l rest ih =>
    intro g ws ls exs h e hmem
    rw [readLoop] at h
    by_cases hb : isBlank l
    · rw [if_pos hb] at h
      cases hw : ws.isEmpty
      · rw [hw] at h
        simp only [Bool.false_eq_true, if_false] at h
        cases hrec : readLoop mode (g + 1) [] [] rest with
        | error e2 => rw [hrec] at h; cases h
        | ok es =>
          rw [hrec] at h
          cases h
          have hne : ws ≠ [] := by intro hcon; subst hcon; simp at hw
          cases hmem with
          | head => simpa using hne
          | tail _ hmem2 => exact ih (g + 1) [] [] es hrec e hmem2
      · rw [hw] at h
        simp only [if_true] at h
        exact ih g [] [] exs h e hmem
    · rw [if_neg hb] at h
      cases hs : pySplit l with
      | nil => rw [hs] at h; cases h
      | cons w t =>
        rw [hs] at h
        exact ih g (ws ++ [w]) (ls ++ [lineLabelOf w t]) exs h e hmem

theorem readLoop_append_blank (mode : String) :
    ∀ (lines : List String) (g : Nat) (ws ls : List String),
      readLoop mode g ws ls (lines ++ ["\n"]) = readLoop mode g ws ls lines := by
  intro lines
  induction lines with
  | nil =>
    intro g ws ls
    cases hw : ws.isEmpty <;>
      simp [readLoop, isBlank, hw]
  | cons l rest ih =>
    intro g ws ls
    rw [List.cons_append, readLoop, readLoop]
    by_cases hb : isBlank l
    · rw [if_pos hb, if_pos hb]
      cases hw : ws.isEmpty <;> simp only [Bool.false_eq_true, if_false, if_true]
      · rw [ih (g + 1) [] []]
      · rw [ih g [] []]
    · rw [if_neg hb, if_neg hb]
      cases hs : pySplit l with
      | nil => rfl
      | cons w t => exact ih g (ws ++ [w]) (ls ++ [lineLabelOf w t])

/-- C10: Every example returned by `read_examples_from_file` has a non-empty word
list, and appending a final blank line to the file changes nothing: runs of
blank lines yield no empty example, and a final example not followed by a
blank line is still emitted. -/
theorem reader_no_empty_example (mode : String) (lines : List String)
    (exs : List InputExample)
    (h : read_examples_from_file mode lines = .ok exs) :
    (∀ e ∈ exs, e.words ≠ []) ∧
      read_examples_from_file mode (lines ++ ["\n"]) = .ok exs := by
  refine ⟨readLoop_words_ne_nil mode lines 1 [] [] exs h, ?_⟩
  unfold read_examples_from_file
  rw [readLoop_append_blank mode lines 1 [] []]
  exact h

/-- Witness for C10: a file with doubled blank lines and no final newline. -/
theorem reader_no_empty_example_witness :
    (∀ e ∈ ([⟨"dev-1", ["a"], ["A"]⟩, ⟨"dev-2", ["b"], ["O"]⟩] :
        List InputExample), e.words ≠ []) ∧
      read_examples_from_file "dev" (["a A\n", "\n", "\n", "b"] ++ ["\n"]) =
        .ok [⟨"dev-1", ["a"], ["A"]⟩, ⟨"dev-2", ["b"], ["O"]⟩] :=
  reader_no_empty_example "dev" ["a A\n", "\n", "\n", "b"] _ (by decide)

theorem readLoop_entries (mode : String) (L : List String) :
    ∀ (lines : List String) (g : Nat) (ws ls : List String) (exs : List InputExample),
      readLoop mode g ws ls lines = .ok exs →
      (∀ x ∈ lines, x ∈ L) →
      ws.length = ls.length →
      (∀ j, j < ws.length → entryFromLine L (ws.getD j "") (ls.getD j "")) →
      ∀ e ∈ exs, e.labels.length = e.words.length ∧
        ∀ j, j < e.words.length →
          entryFromLine L (e.words.getD j "") (e.labels.getD j "") := by
  intro lines
  induction lines with
  | nil =>
    intro g ws ls exs h hsub hlen hacc e hmem
    cases hw : ws.isEmpty <;> rw [readLoop] at h <;> simp [hw] at h <;> subst h
    · simp only [List.mem_singleton] at hmem
      subst hmem
      exact ⟨hlen.symm, hacc⟩
    · cases hmem
  | cons l rest ih =>
    intro g ws ls exs h hsub hlen hacc e hmem
    rw [readLoop] at h
    have hsub2 : ∀ x ∈ rest, x ∈ L := fun x hx => hsub x (List.mem_cons_of_mem l hx)
    by_cases hb : isBlank l
    · rw [if_pos hb] at h
      cases hw : ws.isEmpty
      · rw [hw] at h
        simp only [Bool.false_eq_true, if_false] at h
        cases hrec : readLoop mode (g + 1) [] [] rest with
        | error e2 => rw [hrec] at h; cases h
        | ok es =>
          rw [hrec] at h
          cases h
          cases hmem with
          | head => exact ⟨hlen.symm, hacc⟩
          | tail _ hmem2 =>
            exact ih (g + 1) [] [] es hrec hsub2 rfl
              (fun j hj => absurd hj (by simp)) e hmem2
      · rw [hw] at h
        simp only [if_true] at h
        exact ih g [] [] exs h hsub2 rfl (fun j hj => absurd hj (by simp)) e hmem
    · rw [if_neg hb] at h
      cases hs : pySplit l with
      | nil => rw [hs] at h; cases h
      | cons w t =>
        rw [hs] at h
        have hlen2 : (ws ++ [w]).length = (ls ++ [lineLabelOf w t]).length := by
          simp [hlen]
        have hacc2 : ∀ j, j < (ws ++ [w]).length →
            entryFromLine L ((ws ++ [w]).getD j "")
              ((ls ++ [lineLabelOf w t]).getD j "") := by
          intro j hj
          rcases Nat.lt_or_ge j ws.length with hlt | hge
          · rw [List.getD_append ws [w] "" j hlt,
              List.getD_append ls [lineLabelOf w t] "" j (hlen ▸ hlt)]
            exact hacc j hlt
          · have hj2 : j = ws.length := by
              simp only [List.length_append, List.length_singleton] at hj
              omega
            subst hj2
            rw [getD_concat_self ws w "", hlen, getD_concat_self ls (lineLabelOf w t) ""]
            exact ⟨l, hsub l (List.mem_cons_self l rest), t, hs, rfl,
              fun ht => by simp [lineLabelOf, ht]⟩
        exact ih g (ws ++ [w]) (ls ++ [lineLabelOf w t]) exs h hsub2 hlen2 hacc2 e hmem

/-- C5: Every example produced by `read_examples_from_file` has labels of the
same length as its words, and each word/label position originates in a
non-blank input line whose whitespace-split starts with that word; at every
position whose line contained only one whitespace-separated field the label
is the sentinel `"O"`. -/
theorem reader_label_invariant (mode : String) (lines : List String)
    (exs : List InputExample)
    (h : read_examples_from_file mode lines = .ok exs) :
    ∀ e ∈ exs, e.labels.length = e.words.length ∧
      ∀ j, j < e.words.length →
        entryFromLine lines (e.words.getD j "") (e.labels.getD j "") :=
  readLoop_entries mode lines lines 1 [] [] exs h (fun _ hx => hx) rfl
    (fun _ hj => absurd hj (by simp))

/-- Witness for C5 at a one-line file whose line has a single field. -/
theorem reader_label_invariant_witness :
    (["O"] : List String).length = (["hello"] : List String).length ∧
      entryFromLine ["hello\n"] ((["hello"] : List String).getD 0 "")
        ((["O"] : List String).getD 0 "") := by
  have h := reader_label_invariant "test" ["hello\n"]
    [⟨"test-1", ["hello"], ["O"]⟩] (by decide)
    ⟨"test-1", ["hello"], ["O"]⟩ (by decide)
  exact ⟨h.1, h.2 0 (by decide)⟩

/-! ## Encoder lemmas -/

theorem wordStep_empty (tok : String → List String) (lm : String → Option Nat)
    (word label : String) (h : tok word = []) :
    wordStep tok lm word label = .error .indexError := by
  rw [wordStep, h]
  rfl

theorem wordStep_keyError (tok : String → List String) (lm : String → Option Nat)
    (word label : String) (w0 : String) (rest0 : List String)
    (h : tok word = w0 :: rest0) (h2 : lm label = none) :
    wordStep tok lm word label = .error .keyError := by
  rw [wordStep, h]
  simp [pySet0, lookupLabel, h2, List.replicate_succ]

theorem wordStep_ok (tok : String → List String) (lm : String → Option Nat)
    (word label : String) (w0 : String) (rest0 : List String) (i : Nat)
    (h : tok word = w0 :: rest0) (h2 : lm label = some i) :
    wordStep tok lm word label =
      .ok (tok word, 1 :: List.replicate rest0.length 0,
        i :: List.replicate rest0.length label_pad) := by
  rw [wordStep, h]
  simp [pySet0, lookupLabel, h2, List.replicate_succ, h]

theorem processWords_length (tok : String → List String) (lm : String → Option Nat) :
    ∀ (pairs : List (String × String)) (ts : List String) (vs ls : List Nat),
      processWords tok lm pairs = .ok (ts, vs, ls) →
      vs.length = ts.length ∧ ls.length = ts.length := by
  intro pairs
  induction pairs with
  | nil =>
    intro ts vs ls h
    rw [processWords] at h
    injection h with h
    cases h
    exact ⟨rfl, rfl⟩
  | cons p rest ih =>
    intro ts vs ls h
    obtain ⟨word, label⟩ := p
    rw [processWords] at h
    cases hW : tok word with
    | nil => rw [wordStep_empty tok lm word label hW] at h; cases h
    | cons w0 rest0 =>
      cases hL : lm label with
      | none => rw [wordStep_keyError tok lm word label w0 rest0 hW hL] at h; cases h
      | some i =>
        rw [wordStep_ok tok lm word label w0 rest0 i hW hL] at h
        cases hrec : processWords tok lm rest with
        | error e => rw [hrec] at h; cases h
        | ok r =>
          obtain ⟨ts2, vs2, ls2⟩ := r
          rw [hrec] at h
          injection h with h
          cases h
          have h2 := ih ts2 vs2 ls2 hrec
          simp [hW, List.length_append, h2.1, h2.2]

theorem buildFeature_lengths (tk : Tokenizer) (max_seq_length : Int)
    (mask : Bool) (ts : List String) (vs ls : List Nat) (f : InputFeatures)
    (h : buildFeature tk max_seq_length mask ts vs ls = .ok f) :
    (f.input_ids.length : Int) = max_seq_length ∧
      (f.attention_mask.length : Int) = max_seq_length ∧
      (f.token_type_ids.length : Int) = max_seq_length ∧
      (f.label_ids.length : Int) = max_seq_length := by
  simp only [buildFeature] at h
  repeat' split at h
  all_goals try exact Except.noConfusion h
  all_goals injection h with h
  all_goals subst h
  all_goals refine ⟨?_, ?_, ?_, ?_⟩ <;> dsimp only <;> assumption

theorem convertExample_lengths (tk : Tokenizer) (lm : String → Option Nat)
    (max_seq_length : Int) (mask : Bool) (ex : InputExample) (f : InputFeatures)
    (h : convertExample tk lm max_seq_length mask ex = .ok f) :
    (f.input_ids.length : Int) = max_seq_length ∧
      (f.attention_mask.length : Int) = max_seq_length ∧
      (f.token_type_ids.length : Int) = max_seq_length ∧
      (f.label_ids.length : Int) = max_seq_length := by
  rw [convertExample] at h
  cases hp : processWords tk.tokenize lm (ex.words.zip ex.labels) with
  | error e => rw [hp] at h; cases h
  | ok r =>
    obtain ⟨ts, vs, ls⟩ := r
    rw [hp] at h
    exact buildFeature_lengths tk max_seq_length mask ts vs ls f h

theorem convertLoop_mem (tk : Tokenizer) (lm : String → Option Nat)
    (max_seq_length : Int) (mask : Bool) :
    ∀ (examples : List InputExample) (feats : List InputFeatures),
      convertLoop tk lm max_seq_length mask examples = .ok feats →
      ∀ f ∈ feats, ∃ ex ∈ examples,
        convertExample tk lm max_seq_length mask ex = .ok f := by
  intro examples
  induction examples with
  | nil =>
    intro feats h f hmem
    rw [convertLoop] at h
    injection h with h
    subst h
    cases hmem
  | cons ex rest ih =>
    intro feats h f hmem
    rw [convertLoop] at h
    cases hc : convertExample tk lm max_seq_length mask ex with
    | error e => rw [hc] at h; cases h
    | ok f0 =>
      rw [hc] at h
      cases hr : convertLoop tk lm max_seq_length mask rest with
      | error e => rw [hr] at h; cases h
      | ok fs =>
        rw [hr] at h
        injection h with h
        subst h
        cases hmem with
        | head => exact ⟨ex, List.mem_cons_self ex rest, hc⟩
        | tail _ hmem2 =>
          obtain ⟨ex2, hmem3, hc2⟩ := ih fs hr f hmem2
          exact ⟨ex2, List.mem_cons_of_mem ex hmem3, hc2⟩

/-- C1: Every `InputFeatures` record returned by
`convert_examples_to_features` has `input_ids`, `attention_mask`,
`token_type_ids` and `label_ids` each of length exactly `max_seq_length`, for
every list of examples, label vocabulary, and `max_seq_length`. -/
theorem convert_features_lengths (examples : List InputExample)
    (label_list : List String) (max_seq_length : Int) (tk : Tokenizer)
    (mask : Bool) (feats : List InputFeatures)
    (h : convert_examples_to_features examples label_list max_seq_length tk mask =
      .ok feats) :
    ∀ f ∈ feats, (f.input_ids.length : Int) = max_seq_length ∧
      (f.attention_mask.length : Int) = max_seq_length ∧
      (f.token_type_ids.length : Int) = max_seq_length ∧
      (f.label_ids.length : Int) = max_seq_length := by
  intro f hmem
  obtain ⟨ex, _, hc⟩ :=
    convertLoop_mem tk (label_map label_list) max_seq_length mask examples feats h f hmem
  exact convertExample_lengths tk (label_map label_list) max_seq_length mask ex f hc

/-- Witness for C1 at a concrete example, vocabulary and length 4. -/
theorem convert_features_lengths_witness :
    (([1, 1, 1, 9] : List Int).length : Int) = 4 ∧
      (([1, 1, 1, 0] : List Nat).length : Int) = 4 ∧
      (([1, 0, 0, 7] : List Int).length : Int) = 4 ∧
      (([0, 0, 0, 0] : List Nat).length : Int) = 4 :=
  convert_features_lengths [⟨"t", ["x"], ["O"]⟩] ["O"] 4 demoTok true
    [⟨[1, 1, 1, 9], [1, 1, 1, 0], [1, 0, 0, 7], [0, 0, 0, 0]⟩] (by decide)
    ⟨[1, 1, 1, 9], [1, 1, 1, 0], [1, 0, 0, 7], [0, 0, 0, 0]⟩ (by decide)

theorem label_map_from_some :
    ∀ (label_list : List String) (k : Nat) (s : String) (i : Nat),
      label_map_from k label_list s = some i →
      k ≤ i ∧ label_list[i - k]? = some s := by
  intro ll
  induction ll with
  | nil =>
    intro k s i h
    rw [label_map_from] at h
    cases h
  | cons lbl rest ih =>
    intro k s i h
    rw [label_map_from] at h
    cases hr : label_map_from (k + 1) rest s with
    | some j =>
      rw [hr] at h
      injection h with h
      obtain ⟨hk, hget⟩ := ih (k + 1) s j hr
      refine ⟨by omega, ?_⟩
      have hik : i - k = (j - (k + 1)) + 1 := by omega
      rw [hik]
      simpa using hget
    | none =>
      rw [hr] at h
      by_cases he : lbl = s
      · rw [if_pos he] at h
        injection h with h
        subst h
        simp [he]
      · rw [if_neg he] at h
        cases h

theorem label_map_some_getElem (label_list : List String) (s : String) (i : Nat)
    (h : label_map label_list s = some i) : label_list[i]? = some s := by
  have h2 := label_map_from_some label_list 0 s i h
  simpa using h2.2

theorem label_map_from_none_iff :
    ∀ (label_list : List String) (k : Nat) (s : String),
      label_map_from k label_list s = none ↔ s ∉ label_list := by
  intro ll
  induction ll with
  | nil => intro k s; simp [label_map_from]
  | cons lbl rest ih =>
    intro k s
    rw [label_map_from]
    cases hr : label_map_from (k + 1) rest s with
    | some j =>
      have hmem : s ∈ rest :=
        List.getElem?_mem (label_map_from_some rest (k + 1) s j hr).2
      simp [List.mem_cons, hmem]
    | none =>
      have hns : s ∉ rest := (ih (k + 1) s).mp hr
      by_cases he : lbl = s
      · simp [he]
      · simp [he, List.mem_cons, hns]
        exact fun hc => he hc.symm

theorem label_map_none_iff (label_list : List String) (s : String) :
    label_map label_list s = none ↔ s ∉ label_list :=
  label_map_from_none_iff label_list 0 s

/-- C2: In the pre-truncation label sequence built by the word loop, every
word whose sub-tokenization is non-empty contributes its label's index in
`label_list` on its first sub-token and the pad-label 0 on every remaining
sub-token; moreover on success every processed word has a non-empty
sub-tokenization and its label maps to a position of `label_list` holding
that label. -/
theorem sub_token_label_alignment (label_list : List String)
    (tok : String → List String) :
    ∀ (pairs : List (String × String)) (ts : List String) (vs ls : List Nat),
      processWords tok (label_map label_list) pairs = .ok (ts, vs, ls) →
      ls = (pairs.map fun p => (label_map label_list p.2).getD 0 ::
        List.replicate ((tok p.1).length - 1) 0).flatten ∧
      ∀ p ∈ pairs, tok p.1 ≠ [] ∧
        ∃ i, label_map label_list p.2 = some i ∧ label_list[i]? = some p.2 := by
  intro pairs
  induction pairs with
  | nil =>
    intro ts vs ls h
    rw [processWords] at h
    injection h with h
    cases h
    exact ⟨rfl, fun p hp => absurd hp (List.not_mem_nil p)⟩
  | cons p rest ih =>
    intro ts vs ls h
    obtain ⟨word, label⟩ := p
    rw [processWords] at h
    cases hW : tok word with
    | nil =>
      rw [wordStep_empty tok (label_map label_list) word label hW] at h
      cases h
    | cons w0 rest0 =>
      cases hL : label_map label_list label with
      | none =>
        rw [wordStep_keyError tok (label_map label_list) word label w0 rest0 hW hL] at h
        cases h
      | some i =>
        rw [wordStep_ok tok (label_map label_list) word label w0 rest0 i hW hL] at h
        cases hrec : processWords tok (label_map label_list) rest with
        | error e => rw [hrec] at h; cases h
        | ok r =>
          obtain ⟨ts2, vs2, ls2⟩ := r
          rw [hrec] at h
          injection h with h
          injection h with hts h2
          injection h2 with hvs hls
          subst hts
          subst hvs
          subst hls
          obtain ⟨hflat, hall⟩ := ih ts2 vs2 ls2 hrec
          constructor
          · rw [hflat]
            simp [hW, hL, label_pad]
          · intro q hq
            cases hq with
            | head =>
              refine ⟨by simp [hW], i, hL, ?_⟩
              exact label_map_some_getElem label_list label i hL
            | tail _ hq2 => exact hall q hq2

/-- Witness for C2 on a word with two sub-tokens whose label is "B". -/
theorem sub_token_label_alignment_witness :
    ([1, 0] : List Nat) = ([(("aa" : String), ("B" : String))].map fun p =>
      (label_map ["O", "B"] p.2).getD 0 ::
        List.replicate ((demoTok.tokenize p.1).length - 1) 0).flatten ∧
    ∀ p ∈ [(("aa" : String), ("B" : String))], demoTok.tokenize p.1 ≠ [] ∧
      ∃ i, label_map ["O", "B"] p.2 = some i ∧ ["O", "B"][i]? = some p.2 :=
  sub_token_label_alignment ["O", "B"] demoTok.tokenize [("aa", "B")]
    ["a", "#a"] [1, 0] [1, 0] (by decide)

theorem zip_take_min {α β : Type} :
    ∀ (xs : List α) (ys : List β),
      (xs.take (min xs.length ys.length)).zip (ys.take (min xs.length ys.length)) =
        xs.zip ys := by
  intro xs
  induction xs with
  | nil => intro ys; simp
  | cons x xs2 ih =>
    intro ys
    cases ys with
    | nil => simp
    | cons y ys2 =>
      simp only [List.length_cons, Nat.succ_min_succ, List.take_succ_cons,
        List.zip_cons_cons]
      rw [ih ys2]

theorem convertExample_truncToMin (tk : Tokenizer) (lm : String → Option Nat)
    (max_seq_length : Int) (mask : Bool) (ex : InputExample) :
    convertExample tk lm max_seq_length mask (truncToMin ex) =
      convertExample tk lm max_seq_length mask ex := by
  rw [convertExample, convertExample]
  have hz := zip_take_min ex.words ex.labels
  simp only [truncToMin]
  rw [hz]

/-- C9: An example whose words and labels lists have different lengths raises
no error from the mismatch: conversion only iterates over
`zip(words, labels)`, so converting any example list gives the same result as
converting the list in which every example is truncated to its first
`min(len(words), len(labels))` word/label pairs, the surplus of the longer
list being ignored. -/
theorem mismatched_lengths_ignored (examples : List InputExample)
    (label_list : List String) (max_seq_length : Int) (tk : Tokenizer)
    (mask : Bool) :
    convert_examples_to_features (examples.map truncToMin) label_list
        max_seq_length tk mask =
      convert_examples_to_features examples label_list max_seq_length tk mask := by
  rw [convert_examples_to_features, convert_examples_to_features]
  induction examples with
  | nil => rfl
  | cons ex rest ih =>
    rw [List.map_cons, convertLoop, convertLoop,
      convertExample_truncToMin tk (label_map label_list) max_seq_length mask ex, ih]

/-- C4: On success, the per-example sequences are built by truncating the
sub-token and label sequences to `max_seq_length - 2`, appending the
separator token with pad-label and segment id 0, and prepending the
classifier token with pad-label and segment id 1; hence `token_type_ids`
starts with 1 and every other non-padding position holds 0. -/
theorem special_tokens_structure (tk : Tokenizer) (lm : String → Option Nat)
    (max_seq_length : Int) (mask : Bool) (ex : InputExample)
    (ts : List String) (vs ls : List Nat) (f : InputFeatures)
    (hp : processWords tk.tokenize lm (ex.words.zip ex.labels) = .ok (ts, vs, ls))
    (hc : convertExample tk lm max_seq_length mask ex = .ok f) :
    f.input_ids =
      (tk.cls_token :: (pyTake (max_seq_length - 2) ts ++ [tk.sep_token])).map
          tk.token_to_id ++
        List.replicate
          (max_seq_length -
            (((pyTake (max_seq_length - 2) ts).length : Int) + 1 + 1)).toNat
          tk.pad_token_id ∧
    f.label_ids =
      label_pad :: (pyTake (max_seq_length - 2) ls ++ [label_pad]) ++
        List.replicate
          (max_seq_length -
            (((pyTake (max_seq_length - 2) ts).length : Int) + 1 + 1)).toNat
          label_pad ∧
    f.token_type_ids =
      cls_token_segment_id ::
        (List.replicate ((pyTake (max_seq_length - 2) ts).length + 1)
            sequence_segment_id ++
          List.replicate
            (max_seq_length -
              (((pyTake (max_seq_length - 2) ts).length : Int) + 1 + 1)).toNat
            tk.pad_token_type_id) ∧
    f.token_type_ids.head? = some 1 ∧
    ∀ j, 1 ≤ j → j < (pyTake (max_seq_length - 2) ts).length + 2 →
      f.token_type_ids[j]? = some 0 := by
  rw [convertExample, hp] at hc
  simp only [buildFeature] at hc
  repeat' split at hc
  all_goals try exact Except.noConfusion hc
  all_goals injection hc with hc
  all_goals subst hc
  all_goals refine ⟨by simp, by simp [label_pad], by simp, rfl, ?_⟩
  all_goals intro j h1 h2
  all_goals obtain ⟨j2, rfl⟩ : ∃ j2, j = j2 + 1 := ⟨j - 1, by omega⟩
  all_goals dsimp only
  all_goals rw [List.cons_append]
  all_goals rw [List.getElem?_cons_succ]
  all_goals rw [List.getElem?_append]
  all_goals rw [if_pos (by simp; omega)]
  all_goals simp only [List.getElem?_replicate]
  all_goals rw [if_pos (by simp; omega)]
  all_goals rfl

/-- Witness for C4 at a two-sub-token word, vocabulary ["O","B"], length 6. -/
theorem special_tokens_structure_witness :
    ([1, 1, 2, 1, 9, 9] : List Int) =
      (demoTok.cls_token :: (pyTake ((6 : Int) - 2) ["a", "#a"] ++
          [demoTok.sep_token])).map demoTok.token_to_id ++
        List.replicate
          ((6 : Int) -
            (((pyTake ((6 : Int) - 2) ["a", "#a"]).length : Int) + 1 + 1)).toNat
          demoTok.pad_token_id ∧
    ([0, 1, 0, 0, 0, 0] : List Nat) =
      label_pad :: (pyTake ((6 : Int) - 2) [1, 0] ++ [label_pad]) ++
        List.replicate
          ((6 : Int) -
            (((pyTake ((6 : Int) - 2) ["a", "#a"]).length : Int) + 1 + 1)).toNat
          label_pad ∧
    ([1, 0, 0, 0, 7, 7] : List Int) =
      cls_token_segment_id ::
        (List.replicate ((pyTake ((6 : Int) - 2) ["a", "#a"]).length + 1)
            sequence_segment_id ++
          List.replicate
            ((6 : Int) -
              (((pyTake ((6 : Int) - 2) ["a", "#a"]).length : Int) + 1 + 1)).toNat
            demoTok.pad_token_type_id) ∧
    ([1, 0, 0, 0, 7, 7] : List Int).head? = some 1 ∧
    (∀ j, 1 ≤ j → j < (pyTake ((6 : Int) - 2) ["a", "#a"]).length + 2 →
      ([1, 0, 0, 0, 7, 7] : List Int)[j]? = some 0) := by
  have h := special_tokens_structure demoTok (label_map ["O", "B"]) 6 true
    ⟨"t", ["aa"], ["B"]⟩ ["a", "#a"] [1, 0] [1, 0]
    ⟨[1, 1, 2, 1, 9, 9], [1, 1, 1, 1, 0, 0], [1, 0, 0, 0, 7, 7], [0, 1, 0, 0, 0, 0]⟩
    (by decide) (by decide)
  exact h

theorem processWords_ok_exists (tok : String → List String) (lm : String → Option Nat) :
    ∀ (pairs : List (String × String)),
      (∀ p ∈ pairs, tok p.1 ≠ [] ∧ (lm p.2).isSome) →
      ∃ r, processWords tok lm pairs = .ok r := by
  intro pairs
  induction pairs with
  | nil => intro _; exact ⟨([], [], []), rfl⟩
  | cons p rest ih =>
    intro hall
    obtain ⟨word, label⟩ := p
    obtain ⟨htok, hsome⟩ := hall (word, label) (List.mem_cons_self _ _)
    cases hW : tok word with
    | nil => exact absurd hW htok
    | cons w0 rest0 =>
      obtain ⟨i, hL⟩ := Option.isSome_iff_exists.mp hsome
      obtain ⟨⟨ts2, vs2, ls2⟩, hrec⟩ :=
        ih (fun q hq => hall q (List.mem_cons_of_mem _ hq))
      refine ⟨(tok word ++ ts2, (1 :: List.replicate rest0.length 0) ++ vs2,
        (i :: List.replicate rest0.length label_pad) ++ ls2), ?_⟩
      rw [processWords, wordStep_ok tok lm word label w0 rest0 i hW hL, hrec]

theorem processWords_keyError (tok : String → List String) (lm : String → Option Nat) :
    ∀ (pairs : List (String × String)),
      (∀ p ∈ pairs, tok p.1 ≠ []) →
      (∃ p ∈ pairs, lm p.2 = none) →
      processWords tok lm pairs = .error .keyError := by
  intro pairs
  induction pairs with
  | nil => intro _ hbad; obtain ⟨p, hp, _⟩ := hbad; cases hp
  | cons p rest ih =>
    intro htok hbad
    obtain ⟨word, label⟩ := p
    cases hW : tok word with
    | nil => exact absurd hW (htok (word, label) (List.mem_cons_self _ _))
    | cons w0 rest0 =>
      cases hL : lm label with
      | none => rw [processWords, wordStep_keyError tok lm word label w0 rest0 hW hL]
      | some i =>
        have hrest : ∃ q ∈ rest, lm q.2 = none := by
          obtain ⟨q, hq, hqn⟩ := hbad
          cases hq with
          | head =>
            dsimp only at hqn
            rw [hqn] at hL
            cases hL
          | tail _ hq2 => exact ⟨q, hq2, hqn⟩
        rw [processWords, wordStep_ok tok lm word label w0 rest0 i hW hL,
          ih (fun q hq => htok q (List.mem_cons_of_mem _ hq)) hrest]

theorem processWords_indexError (tok : String → List String) (lm : String → Option Nat) :
    ∀ (pairs : List (String × String)),
      (∀ p ∈ pairs, (lm p.2).isSome) →
      (∃ p ∈ pairs, tok p.1 = []) →
      processWords tok lm pairs = .error .indexError := by
  intro pairs
  induction pairs with
  | nil => intro _ hbad; obtain ⟨p, hp, _⟩ := hbad; cases hp
  | cons p rest ih =>
    intro hlbl hbad
    obtain ⟨word, label⟩ := p
    cases hW : tok word with
    | nil => rw [processWords, wordStep_empty tok lm word label hW]
    | cons w0 rest0 =>
      obtain ⟨i, hL⟩ := Option.isSome_iff_exists.mp
        (hlbl (word, label) (List.mem_cons_self _ _))
      have hrest : ∃ q ∈ rest, tok q.1 = [] := by
        obtain ⟨q, hq, hqn⟩ := hbad
        cases hq with
        | head =>
          dsimp only at hqn
          rw [hqn] at hW
          cases hW
        | tail _ hq2 => exact ⟨q, hq2, hqn⟩
      rw [processWords, wordStep_ok tok lm word label w0 rest0 i hW hL,
        ih (fun q hq => hlbl q (List.mem_cons_of_mem _ hq)) hrest]

theorem buildFeature_ok (tk : Tokenizer) (max_seq_length : Int) (mask : Bool)
    (ts : List String) (vs ls : List Nat) (hm : 2 ≤ max_seq_length)
    (hv : vs.length = ts.length) (hl : ls.length = ts.length) :
    ∃ f, buildFeature tk max_seq_length mask ts vs ls = .ok f := by
  have hnn : 0 ≤ max_seq_length - 2 := by omega
  have hM : (((max_seq_length - 2).toNat : Int)) = max_seq_length - 2 :=
    Int.toNat_of_nonneg hnn
  have hts : (pyTake (max_seq_length - 2) ts).length =
      min (max_seq_length - 2).toNat ts.length := by
    rw [pyTake, if_pos hnn, List.length_take]
  have hvs : (pyTake (max_seq_length - 2) vs).length =
      min (max_seq_length - 2).toNat vs.length := by
    rw [pyTake, if_pos hnn, List.length_take]
  have hls : (pyTake (max_seq_length - 2) ls).length =
      min (max_seq_length - 2).toNat ls.length := by
    rw [pyTake, if_pos hnn, List.length_take]
  simp only [buildFeature]
  repeat' split
  all_goals try exact ⟨_, rfl⟩
  all_goals exfalso
  all_goals rename_i hcond
  all_goals apply hcond
  all_goals simp [hts, hvs, hls, hv, hl]
  all_goals omega

theorem convertExample_ok (tk : Tokenizer) (lm : String → Option Nat)
    (max_seq_length : Int) (mask : Bool) (ex : InputExample)
    (hm : 2 ≤ max_seq_length)
    (hall : ∀ p ∈ ex.words.zip ex.labels, tk.tokenize p.1 ≠ [] ∧ (lm p.2).isSome) :
    ∃ f, convertExample tk lm max_seq_length mask ex = .ok f := by
  obtain ⟨⟨ts, vs, ls⟩, hp⟩ :=
    processWords_ok_exists tk.tokenize lm (ex.words.zip ex.labels) hall
  obtain ⟨h1, h2⟩ := processWords_length tk.tokenize lm _ ts vs ls hp
  obtain ⟨f, hb⟩ := buildFeature_ok tk max_seq_length mask ts vs ls hm h1 h2
  refine ⟨f, ?_⟩
  rw [convertExample, hp]
  exact hb

theorem convertExample_keyError (tk : Tokenizer) (lm : String → Option Nat)
    (max_seq_length : Int) (mask : Bool) (ex : InputExample)
    (htok : ∀ p ∈ ex.words.zip ex.labels, tk.tokenize p.1 ≠ [])
    (hbad : ∃ p ∈ ex.words.zip ex.labels, lm p.2 = none) :
    convertExample tk lm max_seq_length mask ex = .error .keyError := by
  rw [convertExample, processWords_keyError tk.tokenize lm _ htok hbad]

theorem convertExample_indexError (tk : Tokenizer) (lm : String → Option Nat)
    (max_seq_length : Int) (mask : Bool) (ex : InputExample)
    (hlbl : ∀ p ∈ ex.words.zip ex.labels, (lm p.2).isSome)
    (hbad : ∃ p ∈ ex.words.zip ex.labels, tk.tokenize p.1 = []) :
    convertExample tk lm max_seq_length mask ex = .error .indexError := by
  rw [convertExample, processWords_indexError tk.tokenize lm _ hlbl hbad]

theorem label_map_isSome_of_mem (label_list : List String) (s : String)
    (hs : s ∈ label_list) : (label_map label_list s).isSome := by
  rw [← Option.ne_none_iff_isSome]
  intro hn
  exact (label_map_none_iff label_list s).mp hn hs

theorem convertLoop_ok_exists (tk : Tokenizer) (lm : String → Option Nat)
    (max_seq_length : Int) (mask : Bool) :
    ∀ (examples : List InputExample),
      (∀ ex ∈ examples, ∃ f, convertExample tk lm max_seq_length mask ex = .ok f) →
      ∃ fs, convertLoop tk lm max_seq_length mask examples = .ok fs := by
  intro examples
  induction examples with
  | nil => intro _; exact ⟨[], rfl⟩
  | cons ex rest ih =>
    intro hall
    obtain ⟨f, hf⟩ := hall ex (List.mem_cons_self _ _)
    obtain ⟨fs, hfs⟩ := ih (fun e he => hall e (List.mem_cons_of_mem _ he))
    refine ⟨f :: fs, ?_⟩
    rw [convertLoop, hf, hfs]

theorem convertLoop_keyError (tk : Tokenizer) (label_list : List String)
    (max_seq_length : Int) (mask : Bool) :
    ∀ (examples : List InputExample),
      (∀ ex ∈ examples, ∀ p ∈ ex.words.zip ex.labels, tk.tokenize p.1 ≠ []) →
      2 ≤ max_seq_length →
      (∃ ex ∈ examples, ∃ p ∈ ex.words.zip ex.labels,
        label_map label_list p.2 = none) →
      convertLoop tk (label_map label_list) max_seq_length mask examples =
        .error .keyError := by
  intro examples
  induction examples with
  | nil => intro _ _ hbad; obtain ⟨ex, hmem, _⟩ := hbad; cases hmem
  | cons ex rest ih =>
    intro htok hm hbad
    by_cases hex : ∃ p ∈ ex.words.zip ex.labels, label_map label_list p.2 = none
    · rw [convertLoop, convertExample_keyError tk (label_map label_list)
        max_seq_length mask ex (htok ex (List.mem_cons_self _ _)) hex]
    · push_neg at hex
      obtain ⟨f, hf⟩ := convertExample_ok tk (label_map label_list) max_seq_length
        mask ex hm (fun p hp => ⟨htok ex (List.mem_cons_self _ _) p hp,
          Option.ne_none_iff_isSome.mp (hex p hp)⟩)
      have hrest : ∃ e ∈ rest, ∃ p ∈ e.words.zip e.labels,
          label_map label_list p.2 = none := by
        obtain ⟨e, hmem, p, hp, hpn⟩ := hbad
        cases hmem with
        | head => exact absurd hpn (hex p hp)
        | tail _ hmem2 => exact ⟨e, hmem2, p, hp, hpn⟩
      rw [convertLoop, hf,
        ih (fun e he => htok e (List.mem_cons_of_mem _ he)) hm hrest]

theorem convertLoop_indexError (tk : Tokenizer) (label_list : List String)
    (max_seq_length : Int) (mask : Bool) :
    ∀ (examples : List InputExample),
      (∀ ex ∈ examples, ∀ p ∈ ex.words.zip ex.labels,
        (label_map label_list p.2).isSome) →
      2 ≤ max_seq_length →
      (∃ ex ∈ examples, ∃ p ∈ ex.words.zip ex.labels, tk.tokenize p.1 = []) →
      convertLoop tk (label_map label_list) max_seq_length mask examples =
        .error .indexError := by
  intro examples
  induction examples with
  | nil => intro _ _ hbad; obtain ⟨ex, hmem, _⟩ := hbad; cases hmem
  | cons ex rest ih =>
    intro hlbl hm hbad
    by_cases hex : ∃ p ∈ ex.words.zip ex.labels, tk.tokenize p.1 = []
    · rw [convertLoop, convertExample_indexError tk (label_map label_list)
        max_seq_length mask ex (hlbl ex (List.mem_cons_self _ _)) hex]
    · push_neg at hex
      obtain ⟨f, hf⟩ := convertExample_ok tk (label_map label_list) max_seq_length
        mask ex hm (fun p hp => ⟨hex p hp, hlbl ex (List.mem_cons_self _ _) p hp⟩)
      have hrest : ∃ e ∈ rest, ∃ p ∈ e.words.zip e.labels,
          tk.tokenize p.1 = [] := by
        obtain ⟨e, hmem, p, hp, hpn⟩ := hbad
        cases hmem with
        | head => exact absurd hpn (hex p hp)
        | tail _ hmem2 => exact ⟨e, hmem2, p, hp, hpn⟩
      rw [convertLoop, hf,
        ih (fun e he => hlbl e (List.mem_cons_of_mem _ he)) hm hrest]

/-- C6: Provided every processed word sub-tokenizes to a non-empty list and
`max_seq_length ≥ 2` (so that no index or assertion failure intervenes),
`convert_examples_to_features` raises a KeyError, propagated to the caller,
exactly when some example has a zipped word whose label is not a member of
`label_list`; in particular when every processed label is in `label_list` no
lookup failure is raised. -/
theorem unknown_label_keyError (examples : List InputExample)
    (label_list : List String) (max_seq_length : Int) (tk : Tokenizer)
    (mask : Bool)
    (htok : ∀ ex ∈ examples, ∀ p ∈ ex.words.zip ex.labels, tk.tokenize p.1 ≠ [])
    (hm : 2 ≤ max_seq_length) :
    convert_examples_to_features examples label_list max_seq_length tk mask =
        .error .keyError ↔
      ∃ ex ∈ examples, ∃ p ∈ ex.words.zip ex.labels, p.2 ∉ label_list := by
  rw [convert_examples_to_features]
  constructor
  · intro h
    by_contra hno
    push_neg at hno
    obtain ⟨fs, hfs⟩ := convertLoop_ok_exists tk (label_map label_list)
      max_seq_length mask examples (fun ex hmem =>
        convertExample_ok tk (label_map label_list) max_seq_length mask ex hm
          (fun p hp => ⟨htok ex hmem p hp,
            label_map_isSome_of_mem label_list p.2 (hno ex hmem p hp)⟩))
    rw [hfs] at h
    cases h
  · intro hbad
    apply convertLoop_keyError tk label_list max_seq_length mask examples htok hm
    obtain ⟨ex, hmem, p, hp, hnot⟩ := hbad
    exact ⟨ex, hmem, p, hp, (label_map_none_iff label_list p.2).mpr hnot⟩

/-- Witness for C6 at a one-word example whose label "BAD" is missing from
the vocabulary ["O"]. -/
theorem unknown_label_keyError_witness :
    (convert_examples_to_features [⟨"g", ["x"], ["BAD"]⟩] ["O"] 4 demoTok true =
        .error .keyError ↔
      ∃ ex ∈ ([⟨"g", ["x"], ["BAD"]⟩] : List InputExample),
        ∃ p ∈ ex.words.zip ex.labels, p.2 ∉ ["O"]) :=
  unknown_label_keyError [⟨"g", ["x"], ["BAD"]⟩] ["O"] 4 demoTok true
    (by decide) (by decide)

/-- C8: If the injected tokenizer returns an empty sub-token list for some
zipped word of some example — with every processed label in the vocabulary
and `max_seq_length ≥ 2`, so that no other failure intervenes — the
conversion raises an uncaught IndexError (the assignment to element 0 of the
empty per-word valid-token list) instead of skipping the word; a failure
mode absent from the errors the spec lists. -/
theorem empty_tokenization_indexError (examples : List InputExample)
    (label_list : List String) (max_seq_length : Int) (tk : Tokenizer)
    (mask : Bool)
    (hlbl : ∀ ex ∈ examples, ∀ p ∈ ex.words.zip ex.labels, p.2 ∈ label_list)
    (hm : 2 ≤ max_seq_length)
    (hbad : ∃ ex ∈ examples, ∃ p ∈ ex.words.zip ex.labels, tk.tokenize p.1 = []) :
    convert_examples_to_features examples label_list max_seq_length tk mask =
      .error .indexError := by
  rw [convert_examples_to_features]
  exact convertLoop_indexError tk label_list max_seq_length mask examples
    (fun ex hmem p hp =>
      label_map_isSome_of_mem label_list p.2 (hlbl ex hmem p hp)) hm hbad

/-- Witness for C8 at a word the demo tokenizer sub-tokenizes to `[]`. -/
theorem empty_tokenization_indexError_witness :
    convert_examples_to_features [⟨"g", ["e"], ["O"]⟩] ["O"] 4 demoTok true =
      .error .indexError :=
  empty_tokenization_indexError [⟨"g", ["e"], ["O"]⟩] ["O"] 4 demoTok true
    (by decide) (by decide) (by decide)

end AbsaUtils
